import Mathlib

/-!
Shallow embedding of the batch-gradient-descent linear regression estimator
from `src/rust/linear_regression/src/lib.rs`.

Floating point numbers (`f64`) are modelled by the type `Fl`: an exact
rational for every finite value, plus the two infinities and NaN, with
IEEE-style propagation of non-finite values through the arithmetic
operations.  In-place mutation of the model (`&mut self` in `train`) is
modelled by explicit state passing: `train` returns the `Result` value
together with the model state after the call.
-/

/-- Model of an `f64` value: a finite rational, `+inf`, `-inf`, or NaN. -/
inductive Fl where
  | fin (q : ℚ)
  | pinf
  | ninf
  | nan
deriving DecidableEq, Repr

namespace Fl

/-- Rust `f64::is_nan`. -/
def is_nan : Fl → Bool
  | nan => true
  | _ => false

/-- Rust `f64::is_infinite`. -/
def is_infinite : Fl → Bool
  | pinf => true
  | ninf => true
  | _ => false

/-- Negation of an `f64` value. -/
def neg : Fl → Fl
  | fin q => fin (-q)
  | pinf => ninf
  | ninf => pinf
  | nan => nan

/-- Addition of `f64` values: exact on finite values, IEEE-style otherwise
(`NaN` is absorbing, `+inf + -inf = NaN`). -/
def add : Fl → Fl → Fl
  | nan, _ => nan
  | _, nan => nan
  | fin a, fin b => fin (a + b)
  | fin _, pinf => pinf
  | pinf, fin _ => pinf
  | fin _, ninf => ninf
  | ninf, fin _ => ninf
  | pinf, pinf => pinf
  | ninf, ninf => ninf
  | pinf, ninf => nan
  | ninf, pinf => nan

/-- Subtraction of `f64` values, as addition of the negation. -/
def sub (a b : Fl) : Fl := add a (neg b)

/-- Multiplication of `f64` values: exact on finite values, IEEE-style sign
rules for infinities, `0 * inf = NaN`, `NaN` absorbing. -/
def mul : Fl → Fl → Fl
  | nan, _ => nan
  | _, nan => nan
  | fin a, fin b => fin (a * b)
  | fin a, pinf => if 0 < a then pinf else if a < 0 then ninf else nan
  | fin a, ninf => if 0 < a then ninf else if a < 0 then pinf else nan
  | pinf, fin b => if 0 < b then pinf else if b < 0 then ninf else nan
  | ninf, fin b => if 0 < b then ninf else if b < 0 then pinf else nan
  | pinf, pinf => pinf
  | pinf, ninf => ninf
  | ninf, pinf => ninf
  | ninf, ninf => pinf

/-- Division of `f64` values: exact on finite values with a nonzero divisor,
IEEE-style otherwise (`x/0` is a signed infinity for `x ≠ 0` and NaN for
`0/0`, `inf/inf = NaN`, `x/inf = 0`). -/
def div : Fl → Fl → Fl
  | nan, _ => nan
  | _, nan => nan
  | fin a, fin b =>
      if b = 0 then (if a = 0 then nan else if 0 < a then pinf else ninf)
      else fin (a / b)
  | fin _, pinf => fin 0
  | fin _, ninf => fin 0
  | pinf, fin b => if b < 0 then ninf else pinf
  | ninf, fin b => if b < 0 then pinf else ninf
  | pinf, pinf => nan
  | pinf, ninf => nan
  | ninf, pinf => nan
  | ninf, ninf => nan

end Fl

/-- Sum of a list of `f64` values (fold of addition from `0.0`), modelling
both `ndarray`'s `sum` and `Iterator::sum::<f64>()`. -/
def flSum (l : List Fl) : Fl := l.foldl Fl.add (Fl.fin 0)

/-- Behaviour of `ndarray` `mean()` followed by `unwrap_or(d)`: `None` (i.e. the
default `d`) exactly when the array is empty, otherwise sum divided by
length. -/
def flMeanOr (d : Fl) (l : List Fl) : Fl :=
  if l.length = 0 then d else (flSum l).div (Fl.fin l.length)

/-- Dot product of two equal-length vectors (`ndarray` `dot` on 1-d
arrays). -/
def dotList (a b : List Fl) : Fl := flSum (List.zipWith Fl.mul a b)

/-- Model of `ndarray::Array2<f64>`: the list of rows together with the
column count of the shape. -/
structure Array2 where
  rows : List (List Fl)
  ncols : Nat
deriving Repr

/-- Rust `Array2::nrows`. -/
def Array2.nrows (x : Array2) : Nat := x.rows.length

/-- Well-formedness of an `Array2`: every row has exactly `ncols` entries
(true of every real `ndarray` array by construction). -/
def Array2.wf (x : Array2) : Prop := ∀ r ∈ x.rows, r.length = x.ncols

instance (x : Array2) : Decidable x.wf := by
  unfold Array2.wf; infer_instance

/-- Rust `x.t().dot(&v)`: entry `j` of the result is the dot product of column
`j` of `x` with `v`. -/
def matTVec (x : Array2) (v : List Fl) : List Fl :=
  (List.range x.ncols).map fun j =>
    flSum (List.zipWith (fun row e => Fl.mul (row.getD j (Fl.fin 0)) e) x.rows v)

/-- The error enum `LinearRegressionError` of the source. -/
inductive LinearRegressionError where
  | DimensionMismatch (expected : Nat) (found : Nat) (context : String)
  | EmptyData
  | NumericalError (msg : String)
deriving DecidableEq, Repr

/-- The `LinearRegression` struct: weight vector, bias, learning rate. -/
structure LinearRegression where
  weights : List Fl
  bias : Fl
  learning_rate : Fl
deriving DecidableEq, Repr

namespace LinearRegression

/-- Rust `LinearRegression::new`: zero weights of length `n_features`, zero bias,
the given learning rate stored unchanged. -/
def new (n_features : Nat) (learning_rate : Fl) : LinearRegression :=
  { weights := List.replicate n_features (Fl.fin 0)
    bias := Fl.fin 0
    learning_rate := learning_rate }

/-- Rust `LinearRegression::predict`: fails when the column count of `x` differs
from the weight count, otherwise returns `x.dot(&weights) + bias` row by
row. -/
def predict (m : LinearRegression) (x : Array2) :
    Except LinearRegressionError (List Fl) :=
  if x.ncols ≠ m.weights.length then
    .error (.DimensionMismatch m.weights.length x.ncols
      "number of features in prediction")
  else
    .ok (x.rows.map fun r => Fl.add (dotList r m.weights) m.bias)

/-- Rust `LinearRegression::mse_loss`: mean of the squared element-wise
differences, `+inf` when the arrays are empty (`mean().unwrap_or(INFINITY)`). -/
def mse_loss (_m : LinearRegression) (predictions y : List Fl) : Fl :=
  let errors := List.zipWith Fl.sub predictions y
  flMeanOr Fl.pinf (errors.map fun e => Fl.mul e e)

/-- Rust `LinearRegression::r_squared`: `1 - SS_res / SS_tot` with
`y_mean = y.mean().unwrap_or(0.0)`. -/
def r_squared (_m : LinearRegression) (predictions y : List Fl) : Fl :=
  let y_mean := flMeanOr (Fl.fin 0) y
  let ss_tot := flSum (y.map fun yi => Fl.mul (Fl.sub yi y_mean) (Fl.sub yi y_mean))
  let ss_res := flSum ((predictions.zip y).map fun p =>
    Fl.mul (Fl.sub p.2 p.1) (Fl.sub p.2 p.1))
  Fl.sub (Fl.fin 1) (ss_res.div ss_tot)

/-- Body of the `for _ in 0..epochs` loop of `train`, with the mutable state
(`history`, `weights`, `bias`) passed explicitly.  Returns the `Result` of
the loop together with the weight vector and bias it leaves behind in the
model. -/
def trainLoop (lr : Fl) (x : Array2) (y : List Fl) (n_samples : Nat) :
    Nat → List Fl → Fl → List Fl →
    Except LinearRegressionError (List Fl) × List Fl × Fl
  | 0, w, b, history => (.ok history, w, b)
  | epochs + 1, w, b, history =>
    match predict ⟨w, b, lr⟩ x with
    | .error e => (.error e, w, b)
    | .ok predictions =>
      let errors := List.zipWith Fl.sub predictions y
      if errors.any (fun e => e.is_infinite || e.is_nan) then
        (.error (.NumericalError
          "Infinite or NaN values encountered during training"), w, b)
      else
        let inv := Fl.div (Fl.fin 1) (Fl.fin n_samples)
        let weight_gradients := (matTVec x errors).map fun g => Fl.mul g inv
        let bias_gradient := Fl.mul (flSum errors) inv
        let w' := List.zipWith Fl.sub w (weight_gradients.map fun g => Fl.mul g lr)
        let b' := Fl.sub b (Fl.mul bias_gradient lr)
        let mse := mse_loss ⟨w', b', lr⟩ predictions y
        trainLoop lr x y n_samples epochs w' b' (history ++ [mse])

/-- Rust `LinearRegression::train`: eager validation in source order, then the
epoch loop.  The second component of the result is the model state after
the call (the `&mut self` of the source). -/
def train (m : LinearRegression) (x : Array2) (y : List Fl) (epochs : Nat) :
    Except LinearRegressionError (List Fl) × LinearRegression :=
  if x.nrows ≠ y.length then
    (.error (.DimensionMismatch x.nrows y.length "number of samples in X and y"), m)
  else if x.ncols ≠ m.weights.length then
    (.error (.DimensionMismatch m.weights.length x.ncols "number of features"), m)
  else if x.nrows = 0 then
    (.error .EmptyData, m)
  else
    match trainLoop m.learning_rate x y x.nrows epochs m.weights m.bias [] with
    | (res, w, b) => (res, ⟨w, b, m.learning_rate⟩)

end LinearRegression

/-- Decidable equality of `Result` values, used to evaluate concrete runs
of `predict` and `train`. -/
instance : DecidableEq (Except LinearRegressionError (List Fl)) := fun a b =>
  match a, b with
  | .ok u, .ok v => decidable_of_iff (u = v) (by simp)
  | .error u, .error v => decidable_of_iff (u = v) (by simp)
  | .ok _, .error _ => isFalse fun h => Except.noConfusion h
  | .error _, .ok _ => isFalse fun h => Except.noConfusion h

/-- Predictions of the model with weights `w` and bias `b` on `x`:
`X · w + b` row by row (the value `predict` returns when the shapes agree). -/
def predictionsOf (w : List Fl) (b : Fl) (x : Array2) : List Fl :=
  x.rows.map fun r => Fl.add (dotList r w) b

/-- The per-epoch error vector `predictions - y`. -/
def errorsOf (w : List Fl) (b : Fl) (x : Array2) (y : List Fl) : List Fl :=
  List.zipWith Fl.sub (predictionsOf w b x) y

/-- The numerical-stability check of the training loop:
`errors.iter().any(|&e| e.is_infinite() || e.is_nan())`. -/
def anyNonFinite (errors : List Fl) : Bool :=
  errors.any fun e => e.is_infinite || e.is_nan

/-- Multiplication of `Fl` values is commutative. -/
theorem flMul_comm (a b : Fl) : a.mul b = b.mul a := by
  cases a <;> cases b <;> simp [Fl.mul, mul_comm]

/-- Multiplying by `1/n` equals dividing by `n`, for every `Fl` value and
every positive natural `n`. -/
theorem flMul_one_div (v : Fl) (n : ℕ) (hn : 0 < n) :
    v.mul (Fl.div (Fl.fin 1) (Fl.fin n)) = v.div (Fl.fin n) := by
  have hq : (0 : ℚ) < (n : ℚ) := by exact_mod_cast hn
  have hne : ((n : ℚ)) ≠ 0 := ne_of_gt hq
  have hinv : Fl.div (Fl.fin 1) (Fl.fin n) = Fl.fin (1 / (n : ℚ)) := by
    simp [Fl.div, hne]
  rw [hinv]
  have hpos : (0 : ℚ) < 1 / (n : ℚ) := by positivity
  have hn0 : n ≠ 0 := Nat.pos_iff_ne_zero.mp hn
  cases v with
  | fin a => simp [Fl.mul, Fl.div, hne, div_eq_mul_inv]
  | pinf => simp [Fl.mul, Fl.div, hpos, not_lt.mpr (le_of_lt hq), hn0]
  | ninf => simp [Fl.mul, Fl.div, hpos, not_lt.mpr (le_of_lt hq), hn0]
  | nan => simp [Fl.mul, Fl.div]

/-- When the shapes agree, `predict` succeeds and returns `X · w + b`. -/
theorem predict_ok (w : List Fl) (b lr : Fl) (x : Array2)
    (hc : x.ncols = w.length) :
    LinearRegression.predict ⟨w, b, lr⟩ x = .ok (predictionsOf w b x) := by
  simp [LinearRegression.predict, predictionsOf, hc]

/-- Result of `x.t().dot(v)` has one entry per column of `x`. -/
theorem matTVec_length (x : Array2) (v : List Fl) :
    (matTVec x v).length = x.ncols := by
  simp [matTVec]

/-- One iteration of the training loop whose stability check passes:
update the weights and bias, append the epoch's MSE, continue. -/
theorem trainLoop_step (lr : Fl) (x : Array2) (y : List Fl) (n k : Nat)
    (w : List Fl) (b : Fl) (hist : List Fl) (hc : x.ncols = w.length)
    (hfin : anyNonFinite (errorsOf w b x y) = false) :
    LinearRegression.trainLoop lr x y n (k + 1) w b hist =
      LinearRegression.trainLoop lr x y n k
        (List.zipWith Fl.sub w
          (((matTVec x (errorsOf w b x y)).map
              fun g => Fl.mul g (Fl.div (Fl.fin 1) (Fl.fin n))).map
            fun g => Fl.mul g lr))
        (Fl.sub b (Fl.mul (Fl.mul (flSum (errorsOf w b x y))
          (Fl.div (Fl.fin 1) (Fl.fin n))) lr))
        (hist ++ [LinearRegression.mse_loss ⟨w, b, lr⟩ (predictionsOf w b x) y]) := by
  rw [LinearRegression.trainLoop, predict_ok w b lr x hc]
  simp only [errorsOf, anyNonFinite] at hfin
  simp [errorsOf, hfin]
  rfl

/-- One iteration of the training loop whose stability check fails:
return the `NumericalError` at once, leaving the current parameters. -/
theorem trainLoop_step_err (lr : Fl) (x : Array2) (y : List Fl) (n k : Nat)
    (w : List Fl) (b : Fl) (hist : List Fl) (hc : x.ncols = w.length)
    (hfin : anyNonFinite (errorsOf w b x y) = true) :
    LinearRegression.trainLoop lr x y n (k + 1) w b hist =
      (.error (.NumericalError
        "Infinite or NaN values encountered during training"), w, b) := by
  rw [LinearRegression.trainLoop, predict_ok w b lr x hc]
  simp only [errorsOf, anyNonFinite] at hfin
  simp [errorsOf, hfin]

/-- The updated weight vector of an epoch has as many entries as the old
one whenever the gradient vector does. -/
theorem updatedWeights_length (w l : List Fl) (hl : l.length = w.length) :
    (List.zipWith Fl.sub w l).length = w.length := by
  rw [List.length_zipWith, hl, min_self]

/-- With agreeing shapes, every run of the training loop either succeeds,
appending one history entry per epoch, or stops with a `NumericalError`;
in both cases the weight count is preserved. -/
theorem trainLoop_cases (lr : Fl) (x : Array2) (y : List Fl) (n : Nat) :
    ∀ (k : Nat) (w : List Fl) (b : Fl) (hist : List Fl), x.ncols = w.length →
    (∃ h w' b', LinearRegression.trainLoop lr x y n k w b hist = (.ok h, w', b') ∧
      h.length = hist.length + k ∧ w'.length = w.length) ∨
    (∃ msg w' b', LinearRegression.trainLoop lr x y n k w b hist =
      (.error (.NumericalError msg), w', b') ∧ w'.length = w.length) := by
  intro k
  induction k with
  | zero =>
    intro w b hist hc
    left
    exact ⟨hist, w, b, rfl, by simp [LinearRegression.trainLoop], rfl⟩
  | succ k ih =>
    intro w b hist hc
    by_cases hfin : anyNonFinite (errorsOf w b x y) = true
    · right
      exact ⟨_, w, b, trainLoop_step_err lr x y n k w b hist hc hfin, rfl⟩
    · have hfin' : anyNonFinite (errorsOf w b x y) = false :=
        Bool.eq_false_iff.mpr hfin
      rw [trainLoop_step lr x y n k w b hist hc hfin']
      have hlen : (((matTVec x (errorsOf w b x y)).map
          fun g => Fl.mul g (Fl.div (Fl.fin 1) (Fl.fin n))).map
            fun g => Fl.mul g lr).length = w.length := by
        rw [List.length_map, List.length_map, matTVec_length, hc]
      have hc1 : x.ncols = (List.zipWith Fl.sub w
          (((matTVec x (errorsOf w b x y)).map
            fun g => Fl.mul g (Fl.div (Fl.fin 1) (Fl.fin n))).map
              fun g => Fl.mul g lr)).length := by
        rw [updatedWeights_length _ _ hlen, hc]
      rcases ih _ _ _ hc1 with ⟨h, w', b', heq, hhl, hwl⟩ | ⟨msg, w', b', heq, hwl⟩
      · left
        refine ⟨h, w', b', heq, ?_, ?_⟩
        · rw [hhl, List.length_append]
          simp
          omega
        · rw [hwl, updatedWeights_length _ _ hlen]
      · right
        refine ⟨msg, w', b', heq, ?_⟩
        rw [hwl, updatedWeights_length _ _ hlen]

/-- With agreeing shapes, a run of the training loop that fails with a
`NumericalError` leaves exactly the parameters produced by the epochs it
completed: some prefix of `k` epochs ran to completion and its final
weights and bias are the ones left behind. -/
theorem trainLoop_err_reaches (lr : Fl) (x : Array2) (y : List Fl) (n : Nat) :
    ∀ (e : Nat) (w : List Fl) (b : Fl) (hist : List Fl) (msg : String)
      (w' : List Fl) (b' : Fl), x.ncols = w.length →
    LinearRegression.trainLoop lr x y n e w b hist =
      (.error (.NumericalError msg), w', b') →
    ∃ k h', k < e ∧
      LinearRegression.trainLoop lr x y n k w b hist = (.ok h', w', b') ∧
      anyNonFinite (errorsOf w' b' x y) = true := by
  intro e
  induction e with
  | zero =>
    intro w b hist msg w' b' _ h
    exact absurd (congrArg Prod.fst h) (by simp [LinearRegression.trainLoop])
  | succ e ih =>
    intro w b hist msg w' b' hc h
    by_cases hfin : anyNonFinite (errorsOf w b x y) = true
    · rw [trainLoop_step_err lr x y n e w b hist hc hfin] at h
      have hw : w = w' := congrArg (fun p => p.2.1) h
      have hb : b = b' := congrArg (fun p => p.2.2) h
      refine ⟨0, hist, Nat.succ_pos e, ?_, ?_⟩
      · rw [← hw, ← hb]
        rfl
      · rw [← hw, ← hb]
        exact hfin
    · have hfin' : anyNonFinite (errorsOf w b x y) = false :=
        Bool.eq_false_iff.mpr hfin
      rw [trainLoop_step lr x y n e w b hist hc hfin'] at h
      have hlen : (((matTVec x (errorsOf w b x y)).map
          fun g => Fl.mul g (Fl.div (Fl.fin 1) (Fl.fin n))).map
            fun g => Fl.mul g lr).length = w.length := by
        rw [List.length_map, List.length_map, matTVec_length, hc]
      have hc1 : x.ncols = (List.zipWith Fl.sub w
          (((matTVec x (errorsOf w b x y)).map
            fun g => Fl.mul g (Fl.div (Fl.fin 1) (Fl.fin n))).map
              fun g => Fl.mul g lr)).length := by
        rw [updatedWeights_length _ _ hlen, hc]
      obtain ⟨k, h', hk, heq, hfail⟩ := ih _ _ _ msg w' b' hc1 h
      refine ⟨k + 1, h', Nat.succ_lt_succ hk, ?_, hfail⟩
      rw [trainLoop_step lr x y n k w b hist hc hfin']
      exact heq

/-- The error vector of an epoch has one entry per sample when the shapes
agree. -/
theorem errorsOf_length (w : List Fl) (b : Fl) (x : Array2) (y : List Fl)
    (hr : x.nrows = y.length) : (errorsOf w b x y).length = x.nrows := by
  rw [errorsOf, List.length_zipWith, predictionsOf, List.length_map, ← hr]
  exact min_self _

/-- On a nonempty list, `flMeanOr` is the sum divided by the length. -/
theorem flMeanOr_of_length_pos (d : Fl) (l : List Fl) (h : 0 < l.length) :
    flMeanOr d l = (flSum l).div (Fl.fin l.length) := by
  rw [flMeanOr, if_neg (Nat.pos_iff_ne_zero.mp h)]

/-- Claim C1: with shapes validated (`rows(X) = len(y) > 0`,
`columns(X) = len(weights)`) and the epoch's stability check passing, one
iteration of the training loop performs exactly the batch-gradient-descent
step: with `predictions = X·w + b` and `errors = predictions − y` computed
from the pre-update parameters, the weights become
`w − learning_rate·(Xᵗ·errors)/N`, the bias becomes
`b − learning_rate·mean(errors)` (`N = rows(X)`), and
`mse(predictions, y)` — the MSE of the pre-update predictions — is
appended to the history. -/
theorem C1_epoch_performs_gd_step (lr b : Fl) (x : Array2) (y w hist : List Fl)
    (k : Nat) (hr : x.nrows = y.length) (hn : 0 < x.nrows)
    (hc : x.ncols = w.length)
    (hfin : anyNonFinite (errorsOf w b x y) = false) :
    LinearRegression.trainLoop lr x y x.nrows (k + 1) w b hist =
      LinearRegression.trainLoop lr x y x.nrows k
        (List.zipWith (fun wj g => Fl.sub wj (Fl.mul lr (Fl.div g (Fl.fin x.nrows))))
          w (matTVec x (errorsOf w b x y)))
        (Fl.sub b (Fl.mul lr (flMeanOr Fl.pinf (errorsOf w b x y))))
        (hist ++ [LinearRegression.mse_loss ⟨w, b, lr⟩ (predictionsOf w b x) y]) := by
  rw [trainLoop_step lr x y x.nrows k w b hist hc hfin]
  have hmap : (((matTVec x (errorsOf w b x y)).map
        fun g => Fl.mul g (Fl.div (Fl.fin 1) (Fl.fin x.nrows))).map
          fun g => Fl.mul g lr)
      = (matTVec x (errorsOf w b x y)).map
          fun g => Fl.mul lr (Fl.div g (Fl.fin x.nrows)) := by
    rw [List.map_map]
    apply List.map_congr_left
    intro g _
    simp only [Function.comp_apply]
    rw [flMul_one_div g x.nrows hn, flMul_comm]
  have hmean : flMeanOr Fl.pinf (errorsOf w b x y) =
      (flSum (errorsOf w b x y)).div (Fl.fin x.nrows) := by
    rw [flMeanOr_of_length_pos _ _ (by rw [errorsOf_length w b x y hr]; exact hn),
      errorsOf_length w b x y hr]
  have hbias : Fl.mul (Fl.mul (flSum (errorsOf w b x y))
        (Fl.div (Fl.fin 1) (Fl.fin x.nrows))) lr
      = Fl.mul lr (flMeanOr Fl.pinf (errorsOf w b x y)) := by
    rw [flMul_one_div _ x.nrows hn, flMul_comm, hmean]
  rw [hmap, hbias, List.zipWith_map_right]

/-- Witness for C1 at a concrete input: a one-feature model, one sample,
all hypotheses discharged by computation. -/
theorem C1_witness :
    ((Array2.mk [[Fl.fin 1]] 1).nrows = [Fl.fin 0].length ∧
      0 < (Array2.mk [[Fl.fin 1]] 1).nrows ∧
      (Array2.mk [[Fl.fin 1]] 1).ncols = [Fl.fin 0].length ∧
      anyNonFinite (errorsOf [Fl.fin 0] (Fl.fin 0) (Array2.mk [[Fl.fin 1]] 1)
        [Fl.fin 0]) = false) ∧
    LinearRegression.trainLoop (Fl.fin 1) (Array2.mk [[Fl.fin 1]] 1) [Fl.fin 0]
        (Array2.mk [[Fl.fin 1]] 1).nrows (0 + 1) [Fl.fin 0] (Fl.fin 0) [] =
      LinearRegression.trainLoop (Fl.fin 1) (Array2.mk [[Fl.fin 1]] 1) [Fl.fin 0]
        (Array2.mk [[Fl.fin 1]] 1).nrows 0
        (List.zipWith (fun wj g => Fl.sub wj (Fl.mul (Fl.fin 1)
            (Fl.div g (Fl.fin (Array2.mk [[Fl.fin 1]] 1).nrows))))
          [Fl.fin 0]
          (matTVec (Array2.mk [[Fl.fin 1]] 1)
            (errorsOf [Fl.fin 0] (Fl.fin 0) (Array2.mk [[Fl.fin 1]] 1) [Fl.fin 0])))
        (Fl.sub (Fl.fin 0) (Fl.mul (Fl.fin 1)
          (flMeanOr Fl.pinf
            (errorsOf [Fl.fin 0] (Fl.fin 0) (Array2.mk [[Fl.fin 1]] 1) [Fl.fin 0]))))
        ([] ++ [LinearRegression.mse_loss ⟨[Fl.fin 0], Fl.fin 0, Fl.fin 1⟩
          (predictionsOf [Fl.fin 0] (Fl.fin 0) (Array2.mk [[Fl.fin 1]] 1)) [Fl.fin 0]]) :=
  ⟨⟨rfl, by decide, rfl, by decide⟩,
    C1_epoch_performs_gd_step (Fl.fin 1) (Fl.fin 0) (Array2.mk [[Fl.fin 1]] 1)
      [Fl.fin 0] [Fl.fin 0] [] 0 rfl (by decide) rfl (by decide)⟩

/-- Claim C2: when the shapes are valid and the run does not fail with a
`NumericalError`, `train` succeeds and its history has exactly `epochs`
entries, for every epoch count including zero. -/
theorem C2_success_full_history (m : LinearRegression) (x : Array2) (y : List Fl)
    (epochs : Nat) (hr : x.nrows = y.length) (hn : 0 < x.nrows)
    (hc : x.ncols = m.weights.length)
    (hnum : ∀ msg, (LinearRegression.train m x y epochs).1 ≠
      Except.error (LinearRegressionError.NumericalError msg)) :
    ∃ hist m', LinearRegression.train m x y epochs = (.ok hist, m') ∧
      hist.length = epochs := by
  have h1 : ¬x.nrows ≠ y.length := not_ne_iff.mpr hr
  have h2 : ¬x.ncols ≠ m.weights.length := not_ne_iff.mpr hc
  have h3 : ¬x.nrows = 0 := Nat.pos_iff_ne_zero.mp hn
  rcases trainLoop_cases m.learning_rate x y x.nrows epochs m.weights m.bias [] hc with
    ⟨h, w', b', heq, hlen, -⟩ | ⟨msg, w', b', heq, -⟩
  · refine ⟨h, ⟨w', b', m.learning_rate⟩, ?_, by simpa using hlen⟩
    rw [LinearRegression.train, if_neg h1, if_neg h2, if_neg h3, heq]
  · exfalso
    apply hnum msg
    rw [LinearRegression.train, if_neg h1, if_neg h2, if_neg h3, heq]

/-- Witness for C2 at a concrete input, with `epochs = 0`. -/
theorem C2_witness :
    ∃ hist m', LinearRegression.train (LinearRegression.new 1 (Fl.fin 0))
        (Array2.mk [[Fl.fin 1]] 1) [Fl.fin 2] 0 = (.ok hist, m') ∧
      hist.length = 0 :=
  C2_success_full_history (LinearRegression.new 1 (Fl.fin 0))
    (Array2.mk [[Fl.fin 1]] 1) [Fl.fin 2] 0 rfl (by decide) rfl
    (by
      intro msg h
      rw [show (LinearRegression.train (LinearRegression.new 1 (Fl.fin 0))
          (Array2.mk [[Fl.fin 1]] 1) [Fl.fin 2] 0).1 = Except.ok [] from rfl] at h
      simp at h)

/-- Counterexample to claim C3 as stated: on a sample-count mismatch the
code's error carries the context string
`"number of samples in X and y"`, not `"sample count"`. -/
theorem C3_counterexample :
    (LinearRegression.train (LinearRegression.new 1 (Fl.fin 0))
        (Array2.mk [[Fl.fin 1], [Fl.fin 2]] 1) [Fl.fin 2] 100).1 =
      .error (.DimensionMismatch 2 1 "number of samples in X and y") ∧
    (LinearRegression.train (LinearRegression.new 1 (Fl.fin 0))
        (Array2.mk [[Fl.fin 1], [Fl.fin 2]] 1) [Fl.fin 2] 100).1 ≠
      .error (.DimensionMismatch 2 1 "sample count") := by
  refine ⟨rfl, ?_⟩
  intro h
  rw [show (LinearRegression.train (LinearRegression.new 1 (Fl.fin 0))
      (Array2.mk [[Fl.fin 1], [Fl.fin 2]] 1) [Fl.fin 2] 100).1 =
      .error (.DimensionMismatch 2 1 "number of samples in X and y") from rfl] at h
  simp at h

/-- Claim C3 (amended): `train` validates in the fixed source order — first
violated check wins — with a sample-count mismatch reported as
`DimensionMismatch(expected=rows(X), found=len(y),
context="number of samples in X and y")`, a feature-count mismatch as
`DimensionMismatch(expected=len(weights), found=columns(X),
context="number of features")`, then `EmptyData` on zero rows; otherwise
validation passes and the result is the training loop's result.  (The
claim's context strings `"sample count"` and `"feature count"` do not
match the code.) -/
theorem C3_amended_validation (m : LinearRegression) (x : Array2) (y : List Fl)
    (epochs : Nat) :
    (x.nrows ≠ y.length →
      LinearRegression.train m x y epochs =
        (.error (.DimensionMismatch x.nrows y.length
          "number of samples in X and y"), m)) ∧
    (x.nrows = y.length → x.ncols ≠ m.weights.length →
      LinearRegression.train m x y epochs =
        (.error (.DimensionMismatch m.weights.length x.ncols
          "number of features"), m)) ∧
    (x.nrows = y.length → x.ncols = m.weights.length → x.nrows = 0 →
      LinearRegression.train m x y epochs = (.error .EmptyData, m)) ∧
    (x.nrows = y.length → x.ncols = m.weights.length → x.nrows ≠ 0 →
      ∃ res w' b', LinearRegression.trainLoop m.learning_rate x y x.nrows epochs
          m.weights m.bias [] = (res, w', b') ∧
        LinearRegression.train m x y epochs = (res, ⟨w', b', m.learning_rate⟩)) := by
  refine ⟨?_, ?_, ?_, ?_⟩
  · intro h1
    rw [LinearRegression.train, if_pos h1]
  · intro h1 h2
    rw [LinearRegression.train, if_neg (not_ne_iff.mpr h1), if_pos h2]
  · intro h1 h2 h3
    rw [LinearRegression.train, if_neg (not_ne_iff.mpr h1),
      if_neg (not_ne_iff.mpr h2), if_pos h3]
  · intro h1 h2 h3
    rcases htl : LinearRegression.trainLoop m.learning_rate x y x.nrows epochs
        m.weights m.bias [] with ⟨res, w', b'⟩
    refine ⟨res, w', b', rfl, ?_⟩
    rw [LinearRegression.train, if_neg (not_ne_iff.mpr h1),
      if_neg (not_ne_iff.mpr h2), if_neg h3, htl]

/-- Witness for the amended C3: the first validation branch at a concrete
input. -/
theorem C3_witness :
    LinearRegression.train (LinearRegression.new 1 (Fl.fin 0))
        (Array2.mk [[Fl.fin 1], [Fl.fin 2]] 1) [Fl.fin 2] 100 =
      (.error (.DimensionMismatch 2 1 "number of samples in X and y"),
        LinearRegression.new 1 (Fl.fin 0)) :=
  (C3_amended_validation (LinearRegression.new 1 (Fl.fin 0))
    (Array2.mk [[Fl.fin 1], [Fl.fin 2]] 1) [Fl.fin 2] 100).1 (by decide)

/-- Counterexample to claim C4 as stated: when a non-finite error value is
met, the code's `NumericalError` carries the message
`"Infinite or NaN values encountered during training"`, not
`"non-finite values during training"`. -/
theorem C4_counterexample :
    (LinearRegression.train (LinearRegression.new 1 (Fl.fin 1))
        (Array2.mk [[Fl.fin 1]] 1) [Fl.nan] 5).1 =
      .error (.NumericalError "Infinite or NaN values encountered during training") ∧
    (LinearRegression.train (LinearRegression.new 1 (Fl.fin 1))
        (Array2.mk [[Fl.fin 1]] 1) [Fl.nan] 5).1 ≠
      .error (.NumericalError "non-finite values during training") := by
  refine ⟨rfl, ?_⟩
  intro h
  rw [show (LinearRegression.train (LinearRegression.new 1 (Fl.fin 1))
      (Array2.mk [[Fl.fin 1]] 1) [Fl.nan] 5).1 =
      .error (.NumericalError "Infinite or NaN values encountered during training")
    from rfl] at h
  simp at h

/-- Claim C4 (amended): if any element of the epoch's error vector is
infinite or NaN, the loop stops immediately and fails with
`NumericalError("Infinite or NaN values encountered during training")`
(the claim's message `"non-finite values during training"` does not match
the code); the result is the same for every accumulated history and
carries no history — the history of earlier completed epochs is
discarded. -/
theorem C4_amended_numerical_abort (lr b : Fl) (x : Array2) (y w : List Fl)
    (n k : Nat) (hc : x.ncols = w.length)
    (hfin : anyNonFinite (errorsOf w b x y) = true) :
    ∀ hist : List Fl,
      LinearRegression.trainLoop lr x y n (k + 1) w b hist =
        (.error (.NumericalError
          "Infinite or NaN values encountered during training"), w, b) :=
  fun hist => trainLoop_step_err lr x y n k w b hist hc hfin

/-- Witness for the amended C4 at a concrete input with a NaN target and a
nonempty accumulated history. -/
theorem C4_witness :
    LinearRegression.trainLoop (Fl.fin 1) (Array2.mk [[Fl.fin 1]] 1) [Fl.nan] 1
        (4 + 1) [Fl.fin 0] (Fl.fin 0) [Fl.fin 3] =
      (.error (.NumericalError
        "Infinite or NaN values encountered during training"), [Fl.fin 0], Fl.fin 0) :=
  C4_amended_numerical_abort (Fl.fin 1) (Fl.fin 0) (Array2.mk [[Fl.fin 1]] 1)
    [Fl.nan] [Fl.fin 0] 1 4 rfl (by decide) [Fl.fin 3]

/-- Claim C5: when `train` fails with a `NumericalError`, the returned
model is not rolled back to its pre-call state: its learning rate is the
original one and its weights and bias are exactly the parameters produced
by the `k` epochs that completed before the failure (`k < epochs`) —
pinned as the failure point by the stability check failing at exactly
those returned parameters; only the loss history `hist` of those epochs
is absent from the error result. -/
theorem C5_params_not_restored (m : LinearRegression) (x : Array2) (y : List Fl)
    (epochs : Nat) (msg : String) (m' : LinearRegression)
    (h : LinearRegression.train m x y epochs =
      (.error (.NumericalError msg), m')) :
    m'.learning_rate = m.learning_rate ∧
    anyNonFinite (errorsOf m'.weights m'.bias x y) = true ∧
    ∃ k hist, k < epochs ∧
      LinearRegression.trainLoop m.learning_rate x y x.nrows k
        m.weights m.bias [] = (.ok hist, m'.weights, m'.bias) := by
  by_cases h1 : x.nrows ≠ y.length
  · rw [LinearRegression.train, if_pos h1] at h
    exact absurd (congrArg Prod.fst h) (by simp)
  · by_cases h2 : x.ncols ≠ m.weights.length
    · rw [LinearRegression.train, if_neg h1, if_pos h2] at h
      exact absurd (congrArg Prod.fst h) (by simp)
    · by_cases h3 : x.nrows = 0
      · rw [LinearRegression.train, if_neg h1, if_neg h2, if_pos h3] at h
        exact absurd (congrArg Prod.fst h) (by simp)
      · rcases htl : LinearRegression.trainLoop m.learning_rate x y x.nrows epochs
            m.weights m.bias [] with ⟨res, w2, b2⟩
        rw [LinearRegression.train, if_neg h1, if_neg h2, if_neg h3, htl] at h
        have hres : res = .error (.NumericalError msg) := congrArg Prod.fst h
        have hm : (⟨w2, b2, m.learning_rate⟩ : LinearRegression) = m' :=
          congrArg Prod.snd h
        rw [hres] at htl
        obtain ⟨k, hist, hk, heq, hfail⟩ := trainLoop_err_reaches m.learning_rate x y
          x.nrows epochs m.weights m.bias [] msg w2 b2 (not_ne_iff.mp h2) htl
        rw [← hm]
        exact ⟨rfl, hfail, k, hist, hk, heq⟩

/-- Witness for C5 at a concrete input that diverges after one completed
epoch (NaN learning rate): the returned weights and bias are the
non-finite post-update parameters of the completed epoch, not the zero
pre-call ones, and the stability check fails at exactly that state. -/
theorem C5_witness :
    (LinearRegression.mk [Fl.nan] Fl.nan Fl.nan).learning_rate =
      (LinearRegression.new 1 Fl.nan).learning_rate ∧
    anyNonFinite (errorsOf (LinearRegression.mk [Fl.nan] Fl.nan Fl.nan).weights
      (LinearRegression.mk [Fl.nan] Fl.nan Fl.nan).bias
      (Array2.mk [[Fl.fin 1]] 1) [Fl.fin 1]) = true ∧
    ∃ k hist, k < 5 ∧
      LinearRegression.trainLoop (LinearRegression.new 1 Fl.nan).learning_rate
        (Array2.mk [[Fl.fin 1]] 1) [Fl.fin 1]
        (Array2.mk [[Fl.fin 1]] 1).nrows k
        (LinearRegression.new 1 Fl.nan).weights
        (LinearRegression.new 1 Fl.nan).bias [] =
      (.ok hist, (LinearRegression.mk [Fl.nan] Fl.nan Fl.nan).weights,
        (LinearRegression.mk [Fl.nan] Fl.nan Fl.nan).bias) :=
  C5_params_not_restored (LinearRegression.new 1 Fl.nan)
    (Array2.mk [[Fl.fin 1]] 1) [Fl.fin 1] 5
    "Infinite or NaN values encountered during training"
    (LinearRegression.mk [Fl.nan] Fl.nan Fl.nan) (by decide)

/-- Counterexample to claim C6 as stated: on a feature-count mismatch,
`predict`'s error carries the context string
`"number of features in prediction"`, not `"prediction"`. -/
theorem C6_counterexample :
    LinearRegression.predict (LinearRegression.new 1 (Fl.fin 0))
        (Array2.mk [[Fl.fin 1, Fl.fin 2]] 2) =
      .error (.DimensionMismatch 1 2 "number of features in prediction") ∧
    LinearRegression.predict (LinearRegression.new 1 (Fl.fin 0))
        (Array2.mk [[Fl.fin 1, Fl.fin 2]] 2) ≠
      .error (.DimensionMismatch 1 2 "prediction") := by
  refine ⟨rfl, ?_⟩
  intro h
  rw [show LinearRegression.predict (LinearRegression.new 1 (Fl.fin 0))
      (Array2.mk [[Fl.fin 1, Fl.fin 2]] 2) =
      .error (.DimensionMismatch 1 2 "number of features in prediction")
    from rfl] at h
  simp at h

/-- Claim C6 (amended): `predict` fails if and only if
`columns(X) ≠ len(weights)`, in which case the error is
`DimensionMismatch(expected=len(weights), found=columns(X),
context="number of features in prediction")` (the claim's context string
`"prediction"` does not match the code); otherwise it returns the
`N`-entry vector of row dot products plus bias, and an `X` with zero rows
succeeds with an empty result. -/
theorem C6_amended_predict_contract (m : LinearRegression) (x : Array2) :
    ((∃ err, LinearRegression.predict m x = .error err) ↔
      x.ncols ≠ m.weights.length) ∧
    (x.ncols ≠ m.weights.length →
      LinearRegression.predict m x =
        .error (.DimensionMismatch m.weights.length x.ncols
          "number of features in prediction")) ∧
    (x.ncols = m.weights.length →
      LinearRegression.predict m x = .ok (predictionsOf m.weights m.bias x) ∧
      (predictionsOf m.weights m.bias x).length = x.nrows) ∧
    (x.rows = [] → x.ncols = m.weights.length →
      LinearRegression.predict m x = .ok []) := by
  by_cases hc : x.ncols = m.weights.length
  · have hok : LinearRegression.predict m x =
        .ok (predictionsOf m.weights m.bias x) :=
      predict_ok m.weights m.bias m.learning_rate x hc
    refine ⟨?_, fun h => absurd hc h,
      fun _ => ⟨hok, by simp [predictionsOf, Array2.nrows]⟩,
      fun hrows _ => ?_⟩
    · constructor
      · rintro ⟨err, herr⟩
        rw [hok] at herr
        exact absurd herr (by simp)
      · intro h
        exact absurd hc h
    · rw [hok]
      simp [predictionsOf, hrows]
  · have herr : LinearRegression.predict m x =
        .error (.DimensionMismatch m.weights.length x.ncols
          "number of features in prediction") := by
      rw [LinearRegression.predict, if_pos hc]
    refine ⟨⟨fun _ => hc, fun _ => ⟨_, herr⟩⟩, fun _ => herr,
      fun h => absurd h hc, fun _ h => absurd h hc⟩

/-- Witness for the amended C6: the error branch at a concrete input. -/
theorem C6_witness :
    LinearRegression.predict (LinearRegression.new 1 (Fl.fin 0))
        (Array2.mk [[Fl.fin 1, Fl.fin 2]] 2) =
      .error (.DimensionMismatch 1 2 "number of features in prediction") :=
  (C6_amended_predict_contract (LinearRegression.new 1 (Fl.fin 0))
    (Array2.mk [[Fl.fin 1, Fl.fin 2]] 2)).2.1 (by decide)

/-- Claim C7: when any validation check fails, `train` returns a
validation error (never the loop's `NumericalError`, so no gradient step
ran) and the model is returned exactly as it was: same weights, bias and
learning rate. -/
theorem C7_validation_failure_frame (m : LinearRegression) (x : Array2)
    (y : List Fl) (epochs : Nat)
    (h : x.nrows ≠ y.length ∨ x.ncols ≠ m.weights.length ∨ x.nrows = 0) :
    ∃ err, LinearRegression.train m x y epochs = (.error err, m) ∧
      ∀ msg, err ≠ LinearRegressionError.NumericalError msg := by
  by_cases h1 : x.nrows ≠ y.length
  · exact ⟨_, by rw [LinearRegression.train, if_pos h1], by simp⟩
  · by_cases h2 : x.ncols ≠ m.weights.length
    · exact ⟨_, by rw [LinearRegression.train, if_neg h1, if_pos h2], by simp⟩
    · have h3 : x.nrows = 0 := by
        rcases h with ha | hb | hc
        · exact absurd ha h1
        · exact absurd hb h2
        · exact hc
      exact ⟨.EmptyData,
        by rw [LinearRegression.train, if_neg h1, if_neg h2, if_pos h3], by simp⟩

/-- Witness for C7 at a concrete sample-count mismatch. -/
theorem C7_witness :
    ∃ err, LinearRegression.train (LinearRegression.new 1 (Fl.fin 0))
        (Array2.mk [[Fl.fin 1], [Fl.fin 2]] 1) [Fl.fin 2] 3 =
      (.error err, LinearRegression.new 1 (Fl.fin 0)) ∧
      ∀ msg, err ≠ LinearRegressionError.NumericalError msg :=
  C7_validation_failure_frame (LinearRegression.new 1 (Fl.fin 0))
    (Array2.mk [[Fl.fin 1], [Fl.fin 2]] 1) [Fl.fin 2] 3 (Or.inl (by decide))

/-- Claim C8: once the feature-count relation `columns(X) = len(weights)`
holds, the `predict` call inside the training loop succeeds, the relation
keeps holding at every subsequent epoch, and the loop can never surface a
`DimensionMismatch`: the `?` propagation on `predict` never fires. -/
theorem C8_loop_predict_never_fails (lr b : Fl) (x : Array2)
    (y w hist : List Fl) (n k : Nat) (hc : x.ncols = w.length) :
    (∃ ps, LinearRegression.predict ⟨w, b, lr⟩ x = .ok ps) ∧
    ∀ e f c, (LinearRegression.trainLoop lr x y n k w b hist).1 ≠
      .error (.DimensionMismatch e f c) := by
  refine ⟨⟨_, predict_ok w b lr x hc⟩, ?_⟩
  intro e f c
  rcases trainLoop_cases lr x y n k w b hist hc with
    ⟨h, w', b', heq, -, -⟩ | ⟨msg, w', b', heq, -⟩ <;>
    rw [heq] <;> simp

/-- Witness for C8 at a concrete input. -/
theorem C8_witness :
    (∃ ps, LinearRegression.predict ⟨[Fl.fin 0], Fl.fin 0, Fl.fin 1⟩
        (Array2.mk [[Fl.fin 1]] 1) = .ok ps) ∧
    ∀ e f c, (LinearRegression.trainLoop (Fl.fin 1) (Array2.mk [[Fl.fin 1]] 1)
        [Fl.fin 2] 1 3 [Fl.fin 0] (Fl.fin 0) []).1 ≠
      .error (.DimensionMismatch e f c) :=
  C8_loop_predict_never_fails (Fl.fin 1) (Fl.fin 0) (Array2.mk [[Fl.fin 1]] 1)
    [Fl.fin 2] [Fl.fin 0] [] 1 3 rfl

/-- Rewriting of `zipWith` as a map over the zipped pairs. -/
theorem zipWith_eq_map_zip (f : Fl → Fl → Fl) :
    ∀ ps ys : List Fl,
      List.zipWith f ps ys = (ps.zip ys).map fun p => f p.1 p.2 := by
  intro ps
  induction ps with
  | nil => intro ys; simp
  | cons a ps ih =>
    intro ys
    cases ys with
    | nil => simp
    | cons c ys => simp [ih]

/-- Claim C9: for equal-length inputs, `mse_loss` is the mean of the
squared element-wise differences, and on empty inputs it is positive
infinity — a defined value, not a failure. -/
theorem C9_mse_mean_of_squares (m : LinearRegression) (ps ys : List Fl)
    (h : ps.length = ys.length) :
    LinearRegression.mse_loss m ps ys =
      (if ys.length = 0 then Fl.pinf
       else Fl.div (flSum ((ps.zip ys).map fun p =>
          Fl.mul (Fl.sub p.1 p.2) (Fl.sub p.1 p.2))) (Fl.fin ys.length)) ∧
    LinearRegression.mse_loss m [] [] = Fl.pinf := by
  refine ⟨?_, rfl⟩
  have hlist : (List.zipWith Fl.sub ps ys).map (fun e => Fl.mul e e) =
      (ps.zip ys).map fun p => Fl.mul (Fl.sub p.1 p.2) (Fl.sub p.1 p.2) := by
    rw [zipWith_eq_map_zip Fl.sub ps ys, List.map_map]
    rfl
  have hlen : ((ps.zip ys).map fun p =>
      Fl.mul (Fl.sub p.1 p.2) (Fl.sub p.1 p.2)).length = ys.length := by
    rw [List.length_map, List.length_zip, h, min_self]
  simp only [LinearRegression.mse_loss, flMeanOr, hlist, hlen]

/-- Witness for C9 at a concrete input. -/
theorem C9_witness :
    ([Fl.fin 3].length = [Fl.fin 1].length) ∧
    (LinearRegression.mse_loss (LinearRegression.new 1 (Fl.fin 0))
        [Fl.fin 3] [Fl.fin 1] =
      (if ([Fl.fin 1] : List Fl).length = 0 then Fl.pinf
       else Fl.div (flSum (([Fl.fin 3].zip [Fl.fin 1]).map fun p =>
          Fl.mul (Fl.sub p.1 p.2) (Fl.sub p.1 p.2)))
        (Fl.fin ([Fl.fin 1] : List Fl).length)) ∧
    LinearRegression.mse_loss (LinearRegression.new 1 (Fl.fin 0)) [] [] = Fl.pinf) :=
  ⟨rfl, C9_mse_mean_of_squares (LinearRegression.new 1 (Fl.fin 0))
    [Fl.fin 3] [Fl.fin 1] rfl⟩

/-- An operation against a `LinearRegression` model: the four public
methods.  `train` takes `&mut self`; the other three take `&self`. -/
inductive ModelOp where
  | trainOp (x : Array2) (y : List Fl) (epochs : Nat)
  | predictOp (x : Array2)
  | mseOp (predictions y : List Fl)
  | rsqOp (predictions y : List Fl)

/-- The model state after a sequence of operations: a `train` call leaves
the `&mut self` state its call produced; `predict`, `mse_loss` and
`r_squared` borrow the model immutably and leave it untouched. -/
def runOps : LinearRegression → List ModelOp → LinearRegression
  | m, [] => m
  | m, ModelOp.trainOp x y e :: ops => runOps (LinearRegression.train m x y e).2 ops
  | m, ModelOp.predictOp _ :: ops => runOps m ops
  | m, ModelOp.mseOp _ _ :: ops => runOps m ops
  | m, ModelOp.rsqOp _ _ :: ops => runOps m ops

/-- Every `train` call — whether it fails validation, diverges, or
succeeds — preserves the weight count and the learning rate of the model
it returns. -/
theorem train_preserves_shape (m : LinearRegression) (x : Array2) (y : List Fl)
    (epochs : Nat) :
    (LinearRegression.train m x y epochs).2.weights.length = m.weights.length ∧
    (LinearRegression.train m x y epochs).2.learning_rate = m.learning_rate := by
  by_cases h1 : x.nrows ≠ y.length
  · rw [LinearRegression.train, if_pos h1]
    exact ⟨rfl, rfl⟩
  · by_cases h2 : x.ncols ≠ m.weights.length
    · rw [LinearRegression.train, if_neg h1, if_pos h2]
      exact ⟨rfl, rfl⟩
    · by_cases h3 : x.nrows = 0
      · rw [LinearRegression.train, if_neg h1, if_neg h2, if_pos h3]
        exact ⟨rfl, rfl⟩
      · rcases trainLoop_cases m.learning_rate x y x.nrows epochs m.weights m.bias []
          (not_ne_iff.mp h2) with
          ⟨h, w', b', heq, -, hwl⟩ | ⟨msg, w', b', heq, hwl⟩
        · rw [LinearRegression.train, if_neg h1, if_neg h2, if_neg h3, heq]
          exact ⟨hwl, rfl⟩
        · rw [LinearRegression.train, if_neg h1, if_neg h2, if_neg h3, heq]
          exact ⟨hwl, rfl⟩

/-- Running any sequence of operations preserves the weight count and the
learning rate. -/
theorem runOps_preserves (ops : List ModelOp) : ∀ m : LinearRegression,
    (runOps m ops).weights.length = m.weights.length ∧
    (runOps m ops).learning_rate = m.learning_rate := by
  induction ops with
  | nil => intro m; exact ⟨rfl, rfl⟩
  | cons op ops ih =>
    intro m
    cases op with
    | trainOp x y e =>
      have h := train_preserves_shape m x y e
      have h2 := ih (LinearRegression.train m x y e).2
      rw [runOps]
      exact ⟨h2.1.trans h.1, h2.2.trans h.2⟩
    | predictOp x =>
      rw [runOps]
      exact ih m
    | mseOp p q =>
      rw [runOps]
      exact ih m
    | rsqOp p q =>
      rw [runOps]
      exact ih m

/-- Claim C10: for a model built by `new(n_features, learning_rate)` and
any sequence of `train` / `predict` / `mse_loss` / `r_squared` calls, the
invariant `len(weights) == n_features` holds after every operation and
the learning rate is never mutated. -/
theorem C10_model_invariants (n : Nat) (lr : Fl) (ops : List ModelOp) :
    (runOps (LinearRegression.new n lr) ops).weights.length = n ∧
    (runOps (LinearRegression.new n lr) ops).learning_rate = lr := by
  have h := runOps_preserves ops (LinearRegression.new n lr)
  exact ⟨h.1.trans (by simp [LinearRegression.new]), h.2.trans rfl⟩
